import Mathlib

/-!
Verification of the computor-v1 polynomial equation solver (`computor.py`).

The Python source is shallowly embedded here:
* Python `float` values are modelled as exact rationals `ℚ`;
* the Python `dict` mapping exponents to coefficients is modelled as an
  association list `Dict := List (Nat × ℚ)` whose `dget`/`dset` operations
  mirror `d.get(k, 0)` and `d[k] = v` (update the first occurrence of the
  key, otherwise append);
* `re.findall` with the fixed term pattern
  `([+-]?\d+(\.\d+)?)\s*\*\s*X\^(\d+)` is modelled by a character-level
  scanner (`scanTerms`) that at each position attempts the (deterministic
  equivalent of the) pattern and otherwise skips one character, exactly as
  the regex engine scans for non-overlapping leftmost matches;
* exceptions (`ValueError` from unpacking `split('=')`, `ZeroDivisionError`
  from `/`, `TypeError` from using `None` in arithmetic) are modelled with
  `Except PyErr`.
-/

deriving instance DecidableEq for Except

namespace Computor

/-- Python exceptions that the embedded code can raise. -/
inductive PyErr where
  | valueError
  | zeroDivision
  | typeError
deriving DecidableEq, Repr

/-- The term mapping: Python dict from exponent to coefficient, modelled as
an association list in insertion order. -/
abbrev Dict := List (Nat × ℚ)

/-- `d.get(k, 0)`: value at the first occurrence of key `k`, default `0`. -/
def dget (d : Dict) (k : Nat) : ℚ :=
  match d with
  | [] => 0
  | (k', v) :: rest => if k' = k then v else dget rest k

/-- `d[k] = v`: replace the value at the first occurrence of key `k`,
otherwise append the new entry (Python dict insertion semantics). -/
def dset (d : Dict) (k : Nat) (v : ℚ) : Dict :=
  match d with
  | [] => [(k, v)]
  | (k', v') :: rest => if k' = k then (k, v) :: rest else (k', v') :: dset rest k v

/-- `d.keys()` in insertion order. -/
def dkeys (d : Dict) : List Nat := d.map Prod.fst

/-- ASCII whitespace matched by the pattern's `\s` (Python also matches some
Unicode whitespace; inputs are modelled as ASCII). -/
def isSpaceChar (c : Char) : Bool :=
  c == ' ' || c == '\t' || c == '\n' || c == '\r' || c == '\x0b' || c == '\x0c'

/-- Numeric value of a digit string (used for `int(exp)` and the integer and
fractional digit groups of `float(coeff)`). -/
def digitsToNat (l : List Char) : Nat :=
  l.foldl (fun acc c => 10 * acc + (c.toNat - '0'.toNat)) 0

/-- The optional `[+-]?` sign at the start of a term: the sign factor and the
remaining characters. -/
def matchSign (s : List Char) : ℚ × List Char :=
  match s with
  | '+' :: rest => (1, rest)
  | '-' :: rest => (-1, rest)
  | _ => (1, s)

/-- Attempt to match the term pattern `([+-]?\d+(\.\d+)?)\s*\*\s*X\^(\d+)`
at the head of `s`.  Returns the coefficient value, the exponent, and the
characters after the match.  The greedy regex is deterministic here: each
quantified group is followed by a literal that no character of the group can
match, so maximal munch without backtracking is equivalent. -/
def matchTermAt (s : List Char) : Option (ℚ × Nat × List Char) :=
  let (sign, s1) := matchSign s
  let (ipart, s2) := s1.span Char.isDigit
  if ipart.isEmpty then none else
  let (fpart, s3) :=
    match s2 with
    | '.' :: rest =>
      let (ds, r) := rest.span Char.isDigit
      if ds.isEmpty then (([] : List Char), s2) else (ds, r)
    | _ => (([] : List Char), s2)
  match s3.dropWhile isSpaceChar with
  | '*' :: s5 =>
    match s5.dropWhile isSpaceChar with
    | 'X' :: '^' :: s7 =>
      let (epart, s8) := s7.span Char.isDigit
      if epart.isEmpty then none
      else some (sign * ((digitsToNat ipart : ℚ) + (digitsToNat fpart : ℚ) / (10 : ℚ) ^ fpart.length),
                 (digitsToNat epart, s8))
    | _ => none
  | _ => none

/-- `re.findall(term_pattern, s)`: scan left to right; at each position emit
the term matched there and continue after it, or skip one character.  The
fuel argument (initially the string length) bounds the recursion; every step
consumes at least one character, so it never runs out early. -/
def scanTermsAux : Nat → List Char → List (ℚ × Nat)
  | 0, _ => []
  | _ + 1, [] => []
  | fuel + 1, c :: rest =>
    match matchTermAt (c :: rest) with
    | some (coeff, e, rest') => (coeff, e) :: scanTermsAux fuel rest'
    | none => scanTermsAux fuel rest

/-- All matches of the term pattern in `s`, as (coefficient, exponent). -/
def scanTerms (s : List Char) : List (ℚ × Nat) :=
  scanTermsAux s.length s

/-- `terms_to_dict`: fold the matched terms of one side into a dict,
summing coefficients that share an exponent
(`term_dict[exp] = term_dict.get(exp, 0) + coeff`). -/
def terms_to_dict (terms : List (ℚ × Nat)) : Dict :=
  terms.foldl (fun d t => dset d t.2 (dget d t.2 + t.1)) []

/-- The normalization loop: for each RHS entry,
`lhs_dict[exp] = lhs_dict.get(exp, 0) - coeff`. -/
def normalize (lhs_dict rhs_dict : Dict) : Dict :=
  rhs_dict.foldl (fun d p => dset d p.1 (dget d p.1 - p.2)) lhs_dict

/-- Python `str.split('=')`. -/
def splitOnEq : List Char → List (List Char)
  | [] => [[]]
  | c :: rest =>
    if c = '=' then [] :: splitOnEq rest
    else
      match splitOnEq rest with
      | [] => [[c]]
      | p :: ps => (c :: p) :: ps

/-- `parse_equation`: strip spaces, split on `=` (unpacking to exactly two
parts, raising `ValueError` otherwise), scan each side for terms, fold each
side into a dict and subtract the RHS dict from the LHS dict. -/
def parse_equation (equation : String) : Except PyErr Dict :=
  match splitOnEq (equation.data.filter (fun c => !(c == ' '))) with
  | [lhs, rhs] => .ok (normalize (terms_to_dict (scanTerms lhs)) (terms_to_dict (scanTerms rhs)))
  | _ => .error .valueError

/-- Descending insertion: keeps the list sorted in non-increasing order. -/
def insertDesc (x : Nat) : List Nat → List Nat
  | [] => [x]
  | y :: ys => if y ≤ x then x :: y :: ys else y :: insertDesc x ys

/-- `sorted(keys, reverse=True)`. -/
def sortDesc (l : List Nat) : List Nat := l.foldr insertDesc []

/-- The rendering of one term, `f"{coeff:+} * X^{exp}"` (the decimal
rendering of the coefficient abstracts Python's float repr). -/
def formatTerm (coeff : ℚ) (exp : Nat) : String :=
  (if coeff < 0 then "-" else "+") ++ toString |coeff| ++ " * X^" ++ toString exp

/-- The term list built by `generate_reduced_form`'s loop: exponents in
descending order, entries with coefficient exactly `0` skipped. -/
def generate_reduced_form_terms (d : Dict) : List (Nat × ℚ) :=
  ((sortDesc (dkeys d)).filter (fun e => !(dget d e == 0))).map (fun e => (e, dget d e))

/-- `generate_reduced_form`: join the rendered nonzero terms and append
" = 0", or render the degenerate identity "0 = 0". -/
def generate_reduced_form (d : Dict) : String :=
  let terms := (generate_reduced_form_terms d).map (fun t => formatTerm t.2 t.1)
  if terms.isEmpty then "0 = 0" else String.intercalate " " terms ++ " = 0"

/-- `calculate_discriminant`. -/
def calculate_discriminant (a b c : ℚ) : ℚ := b * b - 4 * a * c

/-- Python `/` on floats: raises `ZeroDivisionError` on a zero denominator. -/
def pydiv (x y : ℚ) : Except PyErr ℚ :=
  if y = 0 then .error .zeroDivision else .ok (x / y)

/-- The Newton loop of `calculate_sqrt`: `x = 0.5 * (x + number / x)`,
raising `ZeroDivisionError` when `x` is zero. -/
def newton_iter (number : ℚ) : Nat → ℚ → Except PyErr ℚ
  | 0, x => .ok x
  | n + 1, x =>
    if x = 0 then .error .zeroDivision
    else newton_iter number n (0.5 * (x + number / x))

/-- The value computed by the Newton loop when no division by zero occurs
(the pure denotation of `newton_iter`). -/
def newton_iter_pure (number : ℚ) : Nat → ℚ → ℚ
  | 0, x => x
  | n + 1, x => newton_iter_pure number n (0.5 * (x + number / x))

/-- The program's square-root approximation: 20 Newton iterations seeded at
the input itself.  This is the routine the spec's "sqrt" denotes. -/
def newton_approx (number : ℚ) : ℚ := newton_iter_pure number 20 number

/-- `calculate_sqrt`: `None` for negative input, otherwise 20 Newton
iterations seeded with the input (so input `0` divides by zero). -/
def calculate_sqrt (number : ℚ) : Except PyErr (Option ℚ) :=
  if number < 0 then .ok none
  else (newton_iter number 20 number).map some

/-- Using the result of `calculate_sqrt` in arithmetic: `None` would raise
`TypeError` in Python. -/
def fromSqrt : Option ℚ → Except PyErr ℚ
  | none => .error .typeError
  | some x => .ok x

/-- The solution payloads of `solve_quadratic` (the numbers interpolated
into the returned strings). -/
inductive QuadResult where
  | complexRoots (re im : ℚ)
  | repeatedRoot (root : ℚ)
  | twoRealRoots (discriminant root1 root2 : ℚ)
deriving DecidableEq, Repr

/-- `solve_quadratic`, with every Python division and every use of the
square-root result modelled explicitly (in source order). -/
def solve_quadratic (a b c : ℚ) : Except PyErr QuadResult :=
  let discriminant := calculate_discriminant a b c
  if discriminant < 0 then
    (pydiv (-b) (2 * a)).bind fun real_part =>
    (calculate_sqrt |discriminant|).bind fun s =>
    (fromSqrt s).bind fun sq =>
    (pydiv sq (2 * a)).bind fun imaginary_part =>
    .ok (.complexRoots real_part imaginary_part)
  else if discriminant = 0 then
    (pydiv (-b) (2 * a)).map fun root => .repeatedRoot root
  else
    (calculate_sqrt discriminant).bind fun s =>
    (fromSqrt s).bind fun sqrt_disc =>
    (pydiv (-b + sqrt_disc) (2 * a)).bind fun root1 =>
    (pydiv (-b - sqrt_disc) (2 * a)).bind fun root2 =>
    .ok (.twoRealRoots discriminant root1 root2)

/-- The solution payloads of `solve_linear`. -/
inductive LinResult where
  | infiniteSolutions
  | noSolution
  | solution (root : ℚ)
deriving DecidableEq, Repr

/-- `solve_linear`. -/
def solve_linear (b c : ℚ) : Except PyErr LinResult :=
  if b = 0 then .ok (if c = 0 then .infiniteSolutions else .noSolution)
  else (pydiv (-c) b).map .solution

/-- Maximum of a list of naturals, `0` for the empty list
(Python `max(l, default=0)`). -/
def listMax (l : List Nat) : Nat := l.foldr max 0

/-- The degree computed by `main`: `max(terms.keys(), default=0)` —
the largest key present in the dict, whatever its coefficient. -/
def degree_of (terms : Dict) : Nat := listMax (dkeys terms)

/-- The outcome reported by `main`'s solving branch. -/
inductive Solution where
  | quad (q : QuadResult)
  | lin (l : LinResult)
  | everyReal
  | noSolution
  | degreeTooHigh
deriving DecidableEq, Repr

/-- The solving branch of `main` (after printing the reduced form):
dispatch on the degree, reading coefficients with `terms.get(k, 0)`. -/
def solve_main (terms : Dict) : Except PyErr Solution :=
  let degree := degree_of terms
  if degree = 2 then
    (solve_quadratic (dget terms 2) (dget terms 1) (dget terms 0)).map .quad
  else if degree = 1 then
    (solve_linear (dget terms 1) (dget terms 0)).map .lin
  else if degree = 0 then
    .ok (if dget terms 0 = 0 then .everyReal else .noSolution)
  else
    .ok .degreeTooHigh

/-- Follows the spec's words, for comparison with `degree_of`: the greatest
exponent with nonzero coefficient, or `0` if none exists. -/
def spec_degree (terms : Dict) : Nat :=
  listMax ((dkeys terms).filter (fun e => !(dget terms e == 0)))

/-! ### Dictionary lemmas -/

theorem dget_dset (d : Dict) (k : Nat) (v : ℚ) (e : Nat) :
    dget (dset d k v) e = if k = e then v else dget d e := by
  induction d with
  | nil => simp [dget, dset]
  | cons p rest ih =>
    obtain ⟨k', v'⟩ := p
    by_cases hk : k' = k
    · subst hk
      simp only [dset, if_pos rfl, dget]
      split_ifs <;> rfl
    · simp only [dset, if_neg hk, dget, ih]
      split_ifs with h1 h2 <;> simp_all

theorem mem_dkeys_dset (d : Dict) (k : Nat) (v : ℚ) (e : Nat) :
    e ∈ dkeys (dset d k v) ↔ e = k ∨ e ∈ dkeys d := by
  induction d with
  | nil => simp [dkeys, dset]
  | cons p rest ih =>
    obtain ⟨k', v'⟩ := p
    by_cases hk : k' = k
    · subst hk
      simp only [dkeys] at ih ⊢
      simp [dset]
    · simp only [dset, if_neg hk, dkeys, List.map_cons, List.mem_cons]
      simp only [dkeys] at ih
      rw [ih]
      tauto

theorem nodup_dkeys_dset (d : Dict) (k : Nat) (v : ℚ)
    (h : (dkeys d).Nodup) : (dkeys (dset d k v)).Nodup := by
  induction d with
  | nil => simp [dkeys, dset]
  | cons p rest ih =>
    obtain ⟨k', v'⟩ := p
    simp only [dkeys, List.map_cons, List.nodup_cons] at h
    by_cases hk : k' = k
    · subst hk
      simp only [dkeys]
      simp [dset]
      exact ⟨fun x hx => h.1 (List.mem_map_of_mem Prod.fst hx), h.2⟩
    · simp only [dset, if_neg hk, dkeys, List.map_cons, List.nodup_cons]
      refine ⟨fun hmem => ?_, ih h.2⟩
      rcases (mem_dkeys_dset rest k v k').mp hmem with h1 | h1
      · exact hk h1
      · exact h.1 h1

/-- The sum of the coefficients of the matched terms carrying exponent `e`
(one side's contribution to the mapping entry at `e`). -/
def sumCoeffs (ts : List (ℚ × Nat)) (e : Nat) : ℚ :=
  ((ts.filter (fun t => t.2 == e)).map Prod.fst).sum

/-- The sum of the values stored at key `e` in a dict. -/
def sumEntries (r : Dict) (e : Nat) : ℚ :=
  ((r.filter (fun p => p.1 == e)).map Prod.snd).sum

theorem sumCoeffs_cons (t : ℚ × Nat) (ts : List (ℚ × Nat)) (e : Nat) :
    sumCoeffs (t :: ts) e = (if t.2 = e then t.1 else 0) + sumCoeffs ts e := by
  by_cases h : t.2 = e
  · simp [sumCoeffs, List.filter_cons, h]
  · have hb : (t.2 == e) = false := by simp [h]
    simp [sumCoeffs, List.filter_cons, hb, h]

theorem sumEntries_cons (p : Nat × ℚ) (r : Dict) (e : Nat) :
    sumEntries (p :: r) e = (if p.1 = e then p.2 else 0) + sumEntries r e := by
  by_cases h : p.1 = e
  · simp [sumEntries, List.filter_cons, h]
  · have hb : (p.1 == e) = false := by simp [h]
    simp [sumEntries, List.filter_cons, hb, h]

theorem dget_terms_to_dict_aux (ts : List (ℚ × Nat)) :
    ∀ (d : Dict) (e : Nat),
      dget (ts.foldl (fun d t => dset d t.2 (dget d t.2 + t.1)) d) e =
        dget d e + sumCoeffs ts e := by
  induction ts with
  | nil => simp [sumCoeffs]
  | cons t ts ih =>
    intro d e
    rw [List.foldl_cons, ih, dget_dset, sumCoeffs_cons]
    by_cases h : t.2 = e
    · rw [if_pos h, if_pos h]
      subst h
      ring
    · rw [if_neg h, if_neg h]
      ring

theorem dget_terms_to_dict (ts : List (ℚ × Nat)) (e : Nat) :
    dget (terms_to_dict ts) e = sumCoeffs ts e := by
  have := dget_terms_to_dict_aux ts [] e
  simpa [terms_to_dict, dget] using this

theorem nodup_dkeys_terms_to_dict_aux (ts : List (ℚ × Nat)) :
    ∀ d : Dict, (dkeys d).Nodup →
      (dkeys (ts.foldl (fun d t => dset d t.2 (dget d t.2 + t.1)) d)).Nodup := by
  induction ts with
  | nil => intro d h; simpa using h
  | cons t ts ih =>
    intro d h
    rw [List.foldl_cons]
    exact ih _ (nodup_dkeys_dset _ _ _ h)

theorem nodup_dkeys_terms_to_dict (ts : List (ℚ × Nat)) :
    (dkeys (terms_to_dict ts)).Nodup :=
  nodup_dkeys_terms_to_dict_aux ts [] (by simp [dkeys])

theorem dget_normalize (r : Dict) :
    ∀ (l : Dict) (e : Nat), dget (normalize l r) e = dget l e - sumEntries r e := by
  induction r with
  | nil => simp [normalize, sumEntries]
  | cons p r ih =>
    intro l e
    obtain ⟨k, c⟩ := p
    show dget (normalize (dset l k (dget l k - c)) r) e = _
    rw [ih, dget_dset, sumEntries_cons]
    by_cases h : k = e
    · rw [if_pos h, if_pos h]
      subst h
      ring
    · rw [if_neg h, if_neg h]
      ring

theorem sumEntries_eq_zero_of_not_mem (r : Dict) (e : Nat) (h : e ∉ dkeys r) :
    sumEntries r e = 0 := by
  induction r with
  | nil => simp [sumEntries]
  | cons p r ih =>
    simp only [dkeys, List.map_cons, List.mem_cons, not_or] at h
    have hne : p.1 ≠ e := fun hh => h.1 hh.symm
    rw [sumEntries_cons, if_neg hne, ih h.2, zero_add]

theorem sumEntries_eq_dget_of_nodup (r : Dict) (e : Nat)
    (h : (dkeys r).Nodup) : sumEntries r e = dget r e := by
  induction r with
  | nil => simp [sumEntries, dget]
  | cons p r ih =>
    obtain ⟨k, v⟩ := p
    simp only [dkeys, List.map_cons, List.nodup_cons] at h
    rw [sumEntries_cons]
    by_cases hk : k = e
    · subst hk
      have h0 : sumEntries r k = 0 := sumEntries_eq_zero_of_not_mem r k h.1
      simp [dget, h0]
    · simp only [dget]
      rw [if_neg hk, if_neg hk, ih h.2, zero_add]

/-! ### Splitting lemmas -/

theorem splitOnEq_ne_nil (l : List Char) : splitOnEq l ≠ [] := by
  induction l with
  | nil => simp [splitOnEq]
  | cons c rest ih =>
    by_cases h : c = '='
    · simp [splitOnEq, h]
    · simp only [splitOnEq, if_neg h]
      rcases hs : splitOnEq rest with _ | ⟨p, ps⟩
      · simp
      · simp

theorem splitOnEq_length (l : List Char) :
    (splitOnEq l).length = l.count '=' + 1 := by
  induction l with
  | nil => simp [splitOnEq]
  | cons c rest ih =>
    by_cases h : c = '='
    · subst h
      simp [splitOnEq, List.count_cons, ih]
    · have hb : (c == '=') = false := by simp [h]
      simp only [splitOnEq, if_neg h, List.count_cons, hb, if_false]
      rcases hs : splitOnEq rest with _ | ⟨p, ps⟩
      · exact absurd hs (splitOnEq_ne_nil rest)
      · rw [hs] at ih
        simpa using ih

theorem count_eq_filter_space (l : List Char) :
    (l.filter (fun c => !(c == ' '))).count '=' = l.count '=' := by
  induction l with
  | nil => simp
  | cons c rest ih =>
    by_cases h : c = '='
    · subst h
      simp [List.filter_cons, List.count_cons, ih]
    · have hb : (c == '=') = false := by simp [h]
      by_cases hsp : c = ' '
      · simp [List.filter_cons, hsp, List.count_cons, ih]
      · have : (!(c == ' ')) = true := by simp [hsp]
        simp [List.filter_cons, this, List.count_cons, hb, ih]

/-! ### Claims about the parser -/

/-- C7: `parse_equation` fails with an error for every input string whose
number of `=` separators is not exactly one (no separator, or more than
one): the tuple unpacking of `split('=')` raises, and nothing catches it. -/
theorem parse_separator_errors (s : String) (h : s.data.count '=' ≠ 1) :
    parse_equation s = .error .valueError := by
  have hlen : (splitOnEq (s.data.filter (fun c => !(c == ' ')))).length =
      s.data.count '=' + 1 := by
    rw [splitOnEq_length, count_eq_filter_space]
  rcases hs : splitOnEq (s.data.filter (fun c => !(c == ' '))) with
    _ | ⟨a, _ | ⟨b, _ | ⟨c, t⟩⟩⟩
  · exact absurd hs (splitOnEq_ne_nil _)
  · unfold parse_equation
    rw [hs]
  · exfalso
    rw [hs] at hlen
    simp at hlen
    omega
  · unfold parse_equation
    rw [hs]

/-- C7 witness: the separator-free input "abc" is rejected. -/
theorem parse_separator_errors_witness :
    ("abc").data.count '=' ≠ 1 ∧ parse_equation "abc" = .error .valueError :=
  ⟨by decide, parse_separator_errors "abc" (by decide)⟩

/-- C8: every input string with exactly one `=` parses successfully, and the
resulting mapping is built from the matched term substrings alone (each side
scanned for pattern matches, folded to a dict, then merged); characters that
form no well-formed term never make `parse_equation` fail. -/
theorem parse_lenient_success (s : String) (h : s.data.count '=' = 1) :
    ∃ l r, splitOnEq (s.data.filter (fun c => !(c == ' '))) = [l, r] ∧
      parse_equation s =
        .ok (normalize (terms_to_dict (scanTerms l)) (terms_to_dict (scanTerms r))) := by
  have hlen : (splitOnEq (s.data.filter (fun c => !(c == ' ')))).length =
      s.data.count '=' + 1 := by
    rw [splitOnEq_length, count_eq_filter_space]
  rw [h] at hlen
  rcases hs : splitOnEq (s.data.filter (fun c => !(c == ' '))) with
    _ | ⟨a, _ | ⟨b, _ | ⟨c, t⟩⟩⟩ <;> rw [hs] at hlen <;> simp at hlen
  refine ⟨a, b, rfl, ?_⟩
  unfold parse_equation
  rw [hs]

/-- C8 witness: an input full of residual junk (`x?`, `abc`) still parses,
to the mapping built from its single matched term. -/
theorem parse_lenient_success_witness :
    ∃ l r, splitOnEq (("x? = 1*X^2abc").data.filter (fun c => !(c == ' '))) = [l, r] ∧
      parse_equation "x? = 1*X^2abc" =
        .ok (normalize (terms_to_dict (scanTerms l)) (terms_to_dict (scanTerms r))) :=
  parse_lenient_success "x? = 1*X^2abc" (by decide)

/-- C3: for every valid equation (exactly one `=`), the entry of the parsed
mapping at each exponent is the sum of the matched left-hand coefficients at
that exponent minus the sum of the matched right-hand coefficients at that
exponent. -/
theorem parse_entry_left_minus_right (s : String) (h : s.data.count '=' = 1) :
    ∃ l r, splitOnEq (s.data.filter (fun c => !(c == ' '))) = [l, r] ∧
      ∃ d, parse_equation s = .ok d ∧
        ∀ e, dget d e = sumCoeffs (scanTerms l) e - sumCoeffs (scanTerms r) e := by
  obtain ⟨l, r, hs, hp⟩ := parse_lenient_success s h
  refine ⟨l, r, hs, _, hp, fun e => ?_⟩
  rw [dget_normalize, dget_terms_to_dict,
    sumEntries_eq_dget_of_nodup _ _ (nodup_dkeys_terms_to_dict _),
    dget_terms_to_dict]

/-- C3 witness: in "1 * X^2 + 2 * X^2 = 3 * X^2" the entry at exponent 2 is
(1 + 2) - 3 = 0. -/
theorem parse_entry_left_minus_right_witness :
    ∃ l r,
      splitOnEq (("1 * X^2 + 2 * X^2 = 3 * X^2").data.filter (fun c => !(c == ' '))) = [l, r] ∧
      ∃ d, parse_equation "1 * X^2 + 2 * X^2 = 3 * X^2" = .ok d ∧
        ∀ e, dget d e = sumCoeffs (scanTerms l) e - sumCoeffs (scanTerms r) e :=
  parse_entry_left_minus_right "1 * X^2 + 2 * X^2 = 3 * X^2" (by decide)

/-! ### Newton iteration lemmas -/

theorem newton_iter_eq_pure (number : ℚ) (hn : 0 < number) :
    ∀ (k : Nat) (x : ℚ), 0 < x →
      newton_iter number k x = .ok (newton_iter_pure number k x) ∧
        0 < newton_iter_pure number k x := by
  intro k
  induction k with
  | zero => intro x hx; exact ⟨rfl, hx⟩
  | succ k ih =>
    intro x hx
    have hx0 : x ≠ 0 := ne_of_gt hx
    have hpos : 0 < 0.5 * (x + number / x) := by
      have h1 : 0 < number / x := div_pos hn hx
      have h2 : 0 < x + number / x := by linarith
      have : (0 : ℚ) < 0.5 := by norm_num
      exact mul_pos this h2
    constructor
    · show newton_iter number (k + 1) x = _
      rw [newton_iter, if_neg hx0]
      exact (ih _ hpos).1
    · show 0 < newton_iter_pure number (k + 1) x
      rw [newton_iter_pure]
      exact (ih _ hpos).2

theorem calculate_sqrt_of_pos (number : ℚ) (hn : 0 < number) :
    calculate_sqrt number = .ok (some (newton_approx number)) ∧ 0 < newton_approx number := by
  have h := newton_iter_eq_pure number hn 20 number hn
  constructor
  · rw [calculate_sqrt, if_neg (not_lt.mpr (le_of_lt hn)), h.1]
    rfl
  · exact h.2

/-! ### Claims about the solvers -/

/-- C5: `solve_linear` returns infinite solutions when `b = 0` and `c = 0`,
no solution when `b = 0` and `c ≠ 0`, and otherwise the unique root `-c/b`. -/
theorem solve_linear_cases (b c : ℚ) :
    (b = 0 → c = 0 → solve_linear b c = .ok .infiniteSolutions) ∧
    (b = 0 → c ≠ 0 → solve_linear b c = .ok .noSolution) ∧
    (b ≠ 0 → solve_linear b c = .ok (.solution (-c / b))) := by
  refine ⟨fun hb hc => ?_, fun hb hc => ?_, fun hb => ?_⟩
  · simp [solve_linear, hb, hc]
  · simp [solve_linear, hb, hc]
  · simp [solve_linear, hb, pydiv, Except.map]

/-- C5 witness: `solve_linear 2 3` yields the root `-3/2`. -/
theorem solve_linear_cases_witness :
    solve_linear 2 3 = .ok (.solution (-3 / 2)) :=
  (solve_linear_cases 2 3).2.2 (by norm_num)

/-- C4: for a nonzero leading coefficient `a`, the branch taken by
`solve_quadratic` is fully determined by the sign of the discriminant
`b*b - 4*a*c`: negative gives the two complex conjugate roots with real part
`-b/(2a)` and imaginary part `sqrt(|Δ|)/(2a)`; zero gives the repeated root
`-b/(2a)`; positive gives the two real roots `(-b ± sqrt(Δ))/(2a)` — where
`sqrt` is the program's Newton square-root routine (`newton_approx`). -/
theorem solve_quadratic_discriminant_branches (a b c : ℚ) (ha : a ≠ 0) :
    (calculate_discriminant a b c < 0 →
      solve_quadratic a b c =
        .ok (.complexRoots (-b / (2 * a))
          (newton_approx |calculate_discriminant a b c| / (2 * a)))) ∧
    (calculate_discriminant a b c = 0 →
      solve_quadratic a b c = .ok (.repeatedRoot (-b / (2 * a)))) ∧
    (0 < calculate_discriminant a b c →
      solve_quadratic a b c =
        .ok (.twoRealRoots (calculate_discriminant a b c)
          ((-b + newton_approx (calculate_discriminant a b c)) / (2 * a))
          ((-b - newton_approx (calculate_discriminant a b c)) / (2 * a)))) := by
  have h2a : (2 : ℚ) * a ≠ 0 := mul_ne_zero two_ne_zero ha
  refine ⟨fun hd => ?_, fun hd => ?_, fun hd => ?_⟩
  · have habs : 0 < |calculate_discriminant a b c| := abs_pos.mpr (ne_of_lt hd)
    have hs := (calculate_sqrt_of_pos _ habs).1
    rw [solve_quadratic]
    simp only [if_pos hd]
    rw [pydiv, if_neg h2a, hs]
    simp [fromSqrt, Except.bind, pydiv, ha]
  · rw [solve_quadratic]
    simp only [if_neg (not_lt.mpr (le_of_eq hd.symm)), if_pos hd]
    rw [pydiv, if_neg h2a]
    simp [Except.map]
  · have hs := (calculate_sqrt_of_pos _ hd).1
    rw [solve_quadratic]
    simp only [if_neg (not_lt.mpr (le_of_lt hd)), if_neg (ne_of_gt hd)]
    rw [hs]
    simp [fromSqrt, Except.bind, pydiv, ha]

/-- C4 witness: for `X^2 + X = 0` (a = 1, b = 1, c = 0) the discriminant is
1 > 0 and the two real roots are reported. -/
theorem solve_quadratic_discriminant_branches_witness :
    solve_quadratic 1 1 0 =
      .ok (.twoRealRoots (calculate_discriminant 1 1 0)
        ((-1 + newton_approx (calculate_discriminant 1 1 0)) / (2 * 1))
        ((-1 - newton_approx (calculate_discriminant 1 1 0)) / (2 * 1))) :=
  (solve_quadratic_discriminant_branches 1 1 0 (by norm_num)).2.2 (by norm_num [calculate_discriminant])

/-- C6: `calculate_sqrt` signals "undefined" (`None`) for every negative
input, and `solve_quadratic` only ever passes it non-negative arguments
(the complex branch passes `|Δ|`), so the undefined signal — which would
surface as a `TypeError` when used in arithmetic — is unreachable from the
solver. -/
theorem sqrt_undefined_unreachable_from_solver :
    (∀ n : ℚ, n < 0 → calculate_sqrt n = .ok none) ∧
    (∀ a b c : ℚ, solve_quadratic a b c ≠ .error .typeError) := by
  constructor
  · intro n hn
    rw [calculate_sqrt, if_pos hn]
  · intro a b c
    rw [solve_quadratic]
    rcases lt_trichotomy (calculate_discriminant a b c) 0 with hd | hd | hd
    · simp only [if_pos hd]
      have habs : 0 < |calculate_discriminant a b c| := abs_pos.mpr (ne_of_lt hd)
      have hs := (calculate_sqrt_of_pos _ habs).1
      by_cases ha : a = 0
      · simp [pydiv, ha, Except.bind]
      · rw [pydiv, if_neg (mul_ne_zero two_ne_zero ha), hs]
        simp [fromSqrt, Except.bind, pydiv, ha]
    · simp only [if_neg (not_lt.mpr (le_of_eq hd.symm)), if_pos hd]
      by_cases ha : a = 0
      · simp [pydiv, ha, Except.map]
      · simp [pydiv, ha, Except.map]
    · simp only [if_neg (not_lt.mpr (le_of_lt hd)), if_neg (ne_of_gt hd)]
      have hs := (calculate_sqrt_of_pos _ hd).1
      rw [hs]
      by_cases ha : a = 0
      · simp [fromSqrt, Except.bind, pydiv, ha]
      · simp [fromSqrt, Except.bind, pydiv, ha]

/-- C6 witness: a concrete negative input yields the undefined signal, and a
concrete solver call never reports a `TypeError`. -/
theorem sqrt_undefined_unreachable_from_solver_witness :
    calculate_sqrt (-1) = .ok none ∧ solve_quadratic 1 0 1 ≠ .error .typeError :=
  ⟨sqrt_undefined_unreachable_from_solver.1 (-1) (by norm_num),
   sqrt_undefined_unreachable_from_solver.2 1 0 1⟩

/-- C10: `calculate_sqrt 0` divides by its zero seed on the first Newton
step and raises a division-by-zero error (the negative-input guard does not
cover zero), while both square-root calls `solve_quadratic` makes — on
`|Δ|` in the complex branch and on `Δ` in the positive branch — receive
strictly positive arguments and succeed, so the crash is unreachable from
the solver. -/
theorem sqrt_zero_crash_unreachable :
    calculate_sqrt 0 = .error .zeroDivision ∧
    (∀ a b c : ℚ,
      (calculate_discriminant a b c < 0 →
        ∃ y, 0 < y ∧ calculate_sqrt |calculate_discriminant a b c| = .ok (some y)) ∧
      (0 < calculate_discriminant a b c →
        ∃ y, 0 < y ∧ calculate_sqrt (calculate_discriminant a b c) = .ok (some y))) := by
  constructor
  · rfl
  · intro a b c
    constructor
    · intro hd
      have habs : 0 < |calculate_discriminant a b c| := abs_pos.mpr (ne_of_lt hd)
      exact ⟨_, (calculate_sqrt_of_pos _ habs).2, (calculate_sqrt_of_pos _ habs).1⟩
    · intro hd
      exact ⟨_, (calculate_sqrt_of_pos _ hd).2, (calculate_sqrt_of_pos _ hd).1⟩

/-- C10 witness: the zero-input crash, and the successful square root at the
argument `|Δ|` passed for the complex-root instance a = 1, b = 0, c = 1. -/
theorem sqrt_zero_crash_unreachable_witness :
    calculate_sqrt 0 = .error .zeroDivision ∧
    ∃ y, 0 < y ∧ calculate_sqrt |calculate_discriminant 1 0 1| = .ok (some y) :=
  ⟨sqrt_zero_crash_unreachable.1,
   (sqrt_zero_crash_unreachable.2 1 0 1).1 (by norm_num [calculate_discriminant])⟩

/-! ### Reduced-form rendering lemmas -/

theorem insertDesc_perm (x : Nat) (l : List Nat) : List.Perm (insertDesc x l) (x :: l) := by
  induction l with
  | nil => rfl
  | cons y ys ih =>
    rw [insertDesc]
    by_cases h : y ≤ x
    · rw [if_pos h]
    · rw [if_neg h]
      exact (ih.cons y).trans (List.Perm.swap x y ys)

theorem sortDesc_perm (l : List Nat) : List.Perm (sortDesc l) l := by
  induction l with
  | nil => rfl
  | cons x xs ih =>
    exact (insertDesc_perm x (sortDesc xs)).trans (ih.cons x)

theorem mem_insertDesc (x a : Nat) (l : List Nat) :
    a ∈ insertDesc x l ↔ a = x ∨ a ∈ l :=
  (insertDesc_perm x l).mem_iff.trans (by simp)

theorem pairwise_ge_insertDesc (x : Nat) (l : List Nat)
    (h : l.Pairwise (fun a b => b ≤ a)) :
    (insertDesc x l).Pairwise (fun a b => b ≤ a) := by
  induction l with
  | nil => simp [insertDesc]
  | cons y ys ih =>
    rw [List.pairwise_cons] at h
    rw [insertDesc]
    by_cases hxy : y ≤ x
    · rw [if_pos hxy, List.pairwise_cons]
      refine ⟨fun b hb => ?_, List.pairwise_cons.mpr h⟩
      rcases List.mem_cons.mp hb with rfl | hb
      · exact hxy
      · exact le_trans (h.1 b hb) hxy
    · rw [if_neg hxy, List.pairwise_cons]
      refine ⟨fun b hb => ?_, ih h.2⟩
      rcases (mem_insertDesc x b ys).mp hb with rfl | hb
      · exact le_of_not_le hxy
      · exact h.1 b hb

theorem sortDesc_pairwise_ge (l : List Nat) :
    (sortDesc l).Pairwise (fun a b => b ≤ a) := by
  induction l with
  | nil => simp [sortDesc]
  | cons x xs ih => exact pairwise_ge_insertDesc x (sortDesc xs) ih

theorem pairwise_gt_of_ge_nodup (l : List Nat)
    (hge : l.Pairwise (fun a b => b ≤ a)) (hnd : l.Nodup) :
    l.Pairwise (fun a b => b < a) := by
  induction l with
  | nil => exact List.Pairwise.nil
  | cons x xs ih =>
    rw [List.pairwise_cons] at hge ⊢
    rw [List.nodup_cons] at hnd
    refine ⟨fun b hb => ?_, ih hge.2 hnd.2⟩
    exact lt_of_le_of_ne (hge.1 b hb) (fun hbx => hnd.1 (hbx ▸ hb))

/-- C9: `generate_reduced_form` lists the terms in strictly descending
exponent order, lists exactly the entries whose coefficient is nonzero
(omitting every zero-coefficient term), and renders exactly "0 = 0" when no
nonzero term remains — in particular for any parsed equation whose terms all
cancel (parsed mappings have duplicate-free keys). -/
theorem generate_reduced_form_spec (d : Dict) (hnd : (dkeys d).Nodup) :
    (generate_reduced_form_terms d).Pairwise (fun p q => q.1 < p.1) ∧
    (∀ p ∈ generate_reduced_form_terms d, p.2 ≠ 0 ∧ p.2 = dget d p.1) ∧
    (∀ e ∈ dkeys d, dget d e ≠ 0 → (e, dget d e) ∈ generate_reduced_form_terms d) ∧
    ((∀ e ∈ dkeys d, dget d e = 0) → generate_reduced_form d = "0 = 0") := by
  have hsortnd : (sortDesc (dkeys d)).Nodup :=
    ((sortDesc_perm (dkeys d)).nodup_iff).mpr hnd
  have hgt : (sortDesc (dkeys d)).Pairwise (fun a b => b < a) :=
    pairwise_gt_of_ge_nodup _ (sortDesc_pairwise_ge (dkeys d)) hsortnd
  refine ⟨?_, fun p hp => ?_, fun e he hne => ?_, fun hz => ?_⟩
  · rw [generate_reduced_form_terms, List.pairwise_map]
    exact hgt.sublist (List.filter_sublist _)
  · rw [generate_reduced_form_terms, List.mem_map] at hp
    obtain ⟨e, he, rfl⟩ := hp
    rw [List.mem_filter] at he
    have : dget d e ≠ 0 := by simpa using he.2
    exact ⟨this, rfl⟩
  · rw [generate_reduced_form_terms, List.mem_map]
    refine ⟨e, List.mem_filter.mpr ⟨((sortDesc_perm (dkeys d)).mem_iff).mpr he, ?_⟩, rfl⟩
    simpa using hne
  · have hterms : generate_reduced_form_terms d = [] := by
      rw [generate_reduced_form_terms]
      have : (sortDesc (dkeys d)).filter (fun e => !(dget d e == 0)) = [] := by
        rw [List.filter_eq_nil_iff]
        intro e he
        have hmem : e ∈ dkeys d := ((sortDesc_perm (dkeys d)).mem_iff).mp he
        simpa using hz e hmem
      rw [this, List.map_nil]
    rw [generate_reduced_form, hterms]
    rfl

/-! ### The degree computation counts zero-coefficient keys (C1, C2)

Concrete runs of the parser and solver are evaluated by `decide`; the
Batteries rational-number operations are restored to their definitional
reducibility inside this section so that the evaluation can proceed. -/

section ConcreteEvaluation

attribute [local semireducible] Rat.add Rat.mul Rat.inv Rat.sub Rat.ofScientific

/-- C1 (failing input): parsing "1 * X^1 + 0 * X^2 = 0" stores a zero
coefficient at exponent 2, and `main`'s `max(terms.keys(), default=0)`
reports degree 2, while the greatest exponent with nonzero coefficient
(`spec_degree`, the spec's definition of degree) is 1.  The reported degree
is therefore not the greatest exponent with nonzero coefficient. -/
theorem degree_reported_from_zero_coefficient_key :
    parse_equation "1 * X^1 + 0 * X^2 = 0" = .ok [(1, 1), (2, 0)] ∧
    degree_of [(1, 1), (2, 0)] = 2 ∧ spec_degree [(1, 1), (2, 0)] = 1 :=
  ⟨by decide, by decide, by decide⟩

/-- C2 (failing input): on "0 * X^2 + 1 * X^1 = 0" the pipeline reports
degree 2 from the zero-coefficient key, enters `solve_quadratic` with
`a = 0`, and the division by `2*a` raises an (unguarded) division-by-zero
error. -/
theorem pipeline_division_by_zero_crash :
    (parse_equation "0 * X^2 + 1 * X^1 = 0").bind solve_main = .error .zeroDivision := by
  decide

/-- C9 witness: parsing the fully-cancelling equation "1 * X^2 = 1 * X^2"
yields the mapping with the single zero entry at exponent 2, whose reduced
form renders exactly "0 = 0". -/
theorem generate_reduced_form_spec_witness :
    parse_equation "1 * X^2 = 1 * X^2" = .ok [(2, 0)] ∧
    (dkeys [(2, 0)]).Nodup ∧ generate_reduced_form [(2, 0)] = "0 = 0" :=
  ⟨by decide, by decide,
   (generate_reduced_form_spec [(2, 0)] (by decide)).2.2.2 (by decide)⟩

end ConcreteEvaluation

end Computor
